import Mathlib

/-!
Verification of the auction-system core: a shallow embedding of the
bid-validation, proxy-bidding, lifecycle/resolution and recommendation-scoring
logic of the repository (`app/utils.py`, `app/models.py`, `app/api.py`,
`app/proxy_bidding.py`, `app/socket_events.py`, `app/recommendations.py`),
with theorems checking the specification's claims against it.

Monetary amounts are Python floats in the source; they are embedded as exact
rationals (`ℚ`), with Python's built-in `round` (banker's rounding, half to
even) modelled exactly.  Timestamps are embedded as rationals ordered by `<`.
Database tables (bids, proxy-bid registry, auction results) are embedded as
lists in insertion order; `ORDER BY x DESC LIMIT 1` is a fold keeping the
earliest row among maxima.
-/

attribute [local semireducible] Rat.add Rat.sub Rat.mul Rat.inv

namespace AuctionSys

/-- Python's built-in `round` to an integer: round half to even. -/
def pyRound (q : ℚ) : ℤ :=
  let f : ℤ := q.floor
  let r : ℚ := q - f
  if r < 1/2 then f
  else if 1/2 < r then f + 1
  else if f % 2 = 0 then f else f + 1

theorem ratFloor_eq_floor (q : ℚ) : q.floor = ⌊q⌋ := by
  rw [Rat.floor_def', Rat.floor_def]

/-- Embedding of `app/utils.py::calculate_minimum_increment`: tiered percentage increment,
rounded to the nearest whole number, floored at 1. -/
def calculate_minimum_increment (amount : ℚ) : ℚ :=
  let pct : ℚ :=
    if amount < 10000 then 5/100
    else if amount < 100000 then 3/100
    else if amount < 1000000 then 2/100
    else if amount < 10000000 then 15/1000
    else 1/100
  let rounded_increment : ℤ := pyRound (amount * pct)
  if (1 : ℚ) ≤ (rounded_increment : ℚ) then (rounded_increment : ℚ) else 1

/-- Embedding of `app/utils.py::calculate_minimum_bid`: minimum acceptable next bid given
the current amount. -/
def calculate_minimum_bid (current_amount : ℚ) : ℚ :=
  if current_amount ≤ 0 then 1
  else (pyRound (current_amount + calculate_minimum_increment current_amount) : ℚ)

/-- A row of the `bids` table restricted to one auction (`app/models.py::Bid`). -/
structure BidRec where
  bidder_id : ℕ
  amount : ℚ
deriving DecidableEq

/-- A row of the `bidder_minimum_amounts` proxy-bid registry restricted to one
auction (`app/models.py::BidderMinimumAmount`); `max_amount` is the column
named `minimum_amount` in the source, the bidder's standing maximum. -/
structure ProxyEntry where
  bidder_id : ℕ
  max_amount : ℚ
deriving DecidableEq

/-- A row of the `auction_results` table (`app/models.py::AuctionResult`). -/
structure ResultRec where
  winner_id : Option ℕ
  winning_bid : ℚ
deriving DecidableEq

/-- One auction together with its product's fields and its slices of the
`bids`, proxy-registry and `auction_results` tables, in insertion order. -/
structure AuctionState where
  start_date : ℚ
  end_date : ℚ
  starting_bid : ℚ
  reserve_price : Option ℚ
  seller_id : ℕ
  bids : List BidRec
  proxy_bids : List ProxyEntry
  results : List ResultRec
deriving DecidableEq

/-- Derived lifecycle status (`app/models.py::Auction.status`). -/
inductive Status where
  | upcoming
  | live
  | ended
deriving DecidableEq

/-- Embedding of `Auction.status`: `now < start → upcoming`; `start ≤ now < end → live`;
otherwise `ended`. Pure function of the two timestamps and the clock. -/
def status (start_date end_date now : ℚ) : Status :=
  if now < start_date then Status.upcoming
  else if start_date ≤ now ∧ now < end_date then Status.live
  else Status.ended

def AuctionState.statusAt (s : AuctionState) (now : ℚ) : Status :=
  status s.start_date s.end_date now

/-- Embedding of
`Bid.query.filter_by(auction_id=...).order_by(Bid.bid_amount.desc()).first()`:
the bid with the maximum amount, earliest row among equals. -/
def highestBid (bids : List BidRec) : Option BidRec :=
  bids.foldl
    (fun acc b =>
      match acc with
      | none => some b
      | some h => if h.amount < b.amount then some b else acc)
    none

/-- Current highest amount: the highest bid's amount, or the product's
starting bid when no bids exist. -/
def currentHighestAmount (s : AuctionState) : ℚ :=
  match highestBid s.bids with
  | some hb => hb.amount
  | none => s.starting_bid

/-- Current highest bidder, `none` when no bids exist. -/
def currentHighestBidder (s : AuctionState) : Option ℕ :=
  match highestBid s.bids with
  | some hb => some hb.bidder_id
  | none => none

/-- The registry query `order_by(BidderMinimumAmount.minimum_amount.desc())`:
proxy entries sorted by standing maximum, highest first. -/
def sortProxiesDesc (l : List ProxyEntry) : List ProxyEntry :=
  l.insertionSort (fun a b => b.max_amount ≤ a.max_amount)

/-- The loop body of
`app/proxy_bidding.py::ProxyBiddingSystem.process_proxy_bids_for_auction`
(lines 648-687): walk the candidates in priority order, tracking the current
highest amount/bidder; skip the current highest bidder; commit exactly the
minimum bid needed whenever the candidate's maximum covers it. Returns the
ordered list of `(bidder_id, amount)` bids placed. -/
def processProxyLoop (highest_amount : ℚ) (highest_bidder : Option ℕ) :
    List ProxyEntry → List (ℕ × ℚ)
  | [] => []
  | p :: rest =>
    if highest_bidder = some p.bidder_id then
      processProxyLoop highest_amount highest_bidder rest
    else
      let minimum_bid_needed := calculate_minimum_bid highest_amount
      if minimum_bid_needed ≤ p.max_amount then
        (p.bidder_id, minimum_bid_needed) ::
          processProxyLoop minimum_bid_needed (some p.bidder_id) rest
      else
        processProxyLoop highest_amount highest_bidder rest

/-- Embedding of `ProxyBiddingSystem.process_proxy_bids_for_auction`: no-op unless the
auction is live; otherwise run the greedy loop over the registry sorted by
maximum descending, starting from the current highest bid/bidder (or the
starting bid and no bidder), committing each placed bid to the ledger.
Returns the executed `(bidder_id, amount)` list and the updated state. -/
def process_proxy_bids_for_auction (now : ℚ) (s : AuctionState) :
    List (ℕ × ℚ) × AuctionState :=
  if s.statusAt now ≠ Status.live then ([], s)
  else
    let executed :=
      processProxyLoop (currentHighestAmount s) (currentHighestBidder s)
        (sortProxiesDesc s.proxy_bids)
    (executed, { s with bids := s.bids ++ executed.map (fun e => ⟨e.1, e.2⟩) })

/-- Embedding of `app/api.py::place_bid` (validation and persistence portion, lines 29-63,
for an existing auction): reject unless the auction is live, the rounded
submitted amount reaches the minimum bid, the bidder is not the seller and the
bidder does not already hold the highest bid; otherwise append the rounded bid
to the ledger.  (The endpoint afterwards triggers
`process_proxy_bids_for_auction`, modelled separately.)  Returns the success
flag and the resulting state. -/
def place_bid (now : ℚ) (bidder_id : ℕ) (bid_amount : ℚ) (s : AuctionState) :
    Bool × AuctionState :=
  if s.statusAt now ≠ Status.live then (false, s)
  else if ((pyRound bid_amount : ℤ) : ℚ) <
      calculate_minimum_bid (currentHighestAmount s) then (false, s)
  else if s.seller_id = bidder_id then (false, s)
  else if currentHighestBidder s = some bidder_id then (false, s)
  else
    (true, { s with bids := s.bids ++ [⟨bidder_id, ((pyRound bid_amount : ℤ) : ℚ)⟩] })

/-- Python truthiness test `not reserve_price or amount >= reserve_price` from
`app/socket_events.py::process_auction_result` (a reserve of `None` or `0.0`
is falsy). -/
def reserve_met (reserve_price : Option ℚ) (amount : ℚ) : Bool :=
  match reserve_price with
  | none => true
  | some r => r = 0 ∨ r ≤ amount

/-- Embedding of `app/socket_events.py::process_auction_result` (the same decision logic as
`app/api.py::process_auction_results`): if a result already exists, no-op;
with no bids record no winner and `winning_bid = 0`; with the reserve unmet
record no winner and the highest amount; otherwise record the highest bidder
and amount. -/
def process_auction_result (s : AuctionState) : AuctionState :=
  if s.results ≠ [] then s
  else
    match highestBid s.bids with
    | some hb =>
      if reserve_met s.reserve_price hb.amount then
        { s with results := s.results ++ [⟨some hb.bidder_id, hb.amount⟩] }
      else
        { s with results := s.results ++ [⟨none, hb.amount⟩] }
    | none => { s with results := s.results ++ [⟨none, 0⟩] }

/-- Embedding of `app/models.py::BidderMinimumAmount.set_minimum_amount`: upsert of the
registry entry for a bidder (at most one per bidder-auction pair). -/
def set_minimum_amount (bidder_id : ℕ) (max_amount : ℚ) (l : List ProxyEntry) :
    List ProxyEntry :=
  if l.any (fun e => e.bidder_id == bidder_id) then
    l.map (fun e =>
      if e.bidder_id = bidder_id then { e with max_amount := max_amount } else e)
  else l ++ [⟨bidder_id, max_amount⟩]

/-- Embedding of `app/proxy_bidding.py::ProxyBiddingSystem._execute_proxy_bid` (lines
696-757): on a live auction, if the bidder does not already hold the highest
bid and the minimum bid needed does not exceed the standing maximum, commit a
bid of exactly the minimum bid needed. -/
def execute_proxy_bid (now : ℚ) (bidder_id : ℕ) (max_amount : ℚ)
    (s : AuctionState) : Bool × AuctionState :=
  if s.statusAt now ≠ Status.live then (false, s)
  else if currentHighestBidder s = some bidder_id then (false, s)
  else
    let minimum_bid_needed := calculate_minimum_bid (currentHighestAmount s)
    if max_amount < minimum_bid_needed then (false, s)
    else (true, { s with bids := s.bids ++ [⟨bidder_id, minimum_bid_needed⟩] })

/-- Embedding of `app/proxy_bidding.py::ProxyBiddingSystem.set_proxy_bid` (lines
501-568):
fail on an ended auction; fail (before touching the registry) when the new
maximum does not exceed the current highest amount; otherwise upsert the
registry entry and, when the auction is live, immediately try to place a
proxy bid advantage via `_execute_proxy_bid` (its failure does not affect the
reported success). -/
def set_proxy_bid (now : ℚ) (bidder_id : ℕ) (max_amount : ℚ)
    (s : AuctionState) : Bool × AuctionState :=
  if s.statusAt now = Status.ended then (false, s)
  else if max_amount ≤ currentHighestAmount s then (false, s)
  else
    let s1 :=
      { s with proxy_bids := set_minimum_amount bidder_id max_amount s.proxy_bids }
    if s1.statusAt now = Status.live then
      (true, (execute_proxy_bid now bidder_id max_amount s1).2)
    else (true, s1)

/-- Embedding of
`app/proxy_bidding.py::EnhancedProxyBiddingSystem._calculate_optimal_bid_for_bidder`
(lines 220-293): second-price bid calculation; `some amount` exactly when the
source returns `should_bid = True` with that `optimal_amount`. The candidate
list is the registry slice `(bidder_id, max_amount)` sorted by maximum
descending, as produced by `_get_auction_state`. -/
def calculate_optimal_bid_for_bidder (bidder_id : ℕ) (max_amount : ℚ)
    (all_proxy_bids : List (ℕ × ℚ)) (current_highest : ℚ)
    (current_winner : Option ℕ) : Option ℚ :=
  if (all_proxy_bids.find? (fun p => p.1 == bidder_id)).isNone then none
  else if current_winner = some bidder_id then none
  else
    match all_proxy_bids.find? (fun p => p.1 != bidder_id) with
    | none =>
      if current_highest < max_amount then
        if current_highest + 1 ≤ max_amount then some (current_highest + 1)
        else none
      else none
    | some second =>
      if max_amount ≤ second.2 then none
      else
        let optimal0 := second.2 + 1
        let optimal :=
          if optimal0 ≤ current_highest then current_highest + 1 else optimal0
        if max_amount < optimal then none else some optimal

/-- Embedding of `sum(x*y for x, y in zip(v, w))`, the numerator of the cosine. -/
def dot_product (v w : List ℚ) : ℚ := (List.zipWith (· * ·) v w).sum

/-- Squared Euclidean norm; `np.linalg.norm(v) > 0` iff `norm_sq v > 0`. -/
def norm_sq (v : List ℚ) : ℚ := dot_product v v

/-- Embedding of `np.linalg.norm`, over the reals. -/
noncomputable def vec_norm (v : List ℚ) : ℝ := Real.sqrt ((norm_sq v : ℚ) : ℝ)

/-- The guarded cosine-similarity scoring of
`app/recommendations.py::get_recommended_products` (lines 142-149) and
`sort_products_for_user` (lines 204-209): divide only when both norms are
positive, otherwise score 0. -/
noncomputable def cosine_similarity (product_vector user_vector : List ℚ) : ℝ :=
  if 0 < vec_norm product_vector ∧ 0 < vec_norm user_vector then
    ((dot_product product_vector user_vector : ℚ) : ℝ) /
      (vec_norm product_vector * vec_norm user_vector)
  else 0

/-- Strategy A's candidate threshold as the specification words it:
`minimum_bid_needed = highest_amount + increment(highest_amount)`. -/
def strategyA_min_needed (highest_amount : ℚ) : ℚ :=
  highest_amount + calculate_minimum_increment highest_amount

/-- Strategy A of the specification, transcribed from its words: iterate the
candidates in descending order of maximum, skip the current highest bidder,
commit exactly `minimum_bid_needed` whenever the candidate's maximum reaches
it, updating the tracked highest amount/bidder. -/
def strategyA_loop (highest_amount : ℚ) (highest_bidder : Option ℕ) :
    List ProxyEntry → List (ℕ × ℚ)
  | [] => []
  | c :: rest =>
    if highest_bidder = some c.bidder_id then
      strategyA_loop highest_amount highest_bidder rest
    else
      let minimum_bid_needed := strategyA_min_needed highest_amount
      if minimum_bid_needed ≤ c.max_amount then
        (c.bidder_id, minimum_bid_needed) ::
          strategyA_loop minimum_bid_needed (some c.bidder_id) rest
      else
        strategyA_loop highest_amount highest_bidder rest

/-- The ordered list of bids Strategy A (as specified) places on a live
auction, starting from the current highest bid/bidder or the starting bid. -/
def strategyA_bids (s : AuctionState) : List (ℕ × ℚ) :=
  strategyA_loop (currentHighestAmount s) (currentHighestBidder s)
    (sortProxiesDesc s.proxy_bids)

/-- A whole, nonnegative number of currency units (the spec's "integer
currency units"). -/
def isWholeNonneg (q : ℚ) : Prop := 0 ≤ q ∧ q.den = 1

instance (q : ℚ) : Decidable (isWholeNonneg q) := by
  unfold isWholeNonneg; infer_instance

/-! ### Arithmetic helper lemmas -/

theorem pyRound_intCast (n : ℤ) : pyRound (n : ℚ) = n := by
  unfold pyRound
  rw [ratFloor_eq_floor, Int.floor_intCast]
  norm_num

/-- The increment is always a whole number of units, at least 1. -/
theorem calculate_minimum_increment_int (q : ℚ) :
    ∃ k : ℤ, calculate_minimum_increment q = (k : ℚ) ∧ 1 ≤ k := by
  unfold calculate_minimum_increment
  set rounded := pyRound (q * _) with hr
  by_cases h : (1 : ℚ) ≤ (rounded : ℚ)
  · exact ⟨rounded, by rw [if_pos h], by exact_mod_cast h⟩
  · exact ⟨1, by rw [if_neg h]; norm_num, le_refl 1⟩

theorem isWholeNonneg_int (q : ℚ) (h : isWholeNonneg q) :
    ∃ m : ℤ, 0 ≤ m ∧ q = (m : ℚ) := by
  refine ⟨q.num, ?_, (Rat.coe_int_num_of_den_eq_one h.2).symm⟩
  exact Rat.num_nonneg.mpr h.1

/-- On a whole nonnegative amount the code's `round(current + increment)`
collapses to `current + increment`. -/
theorem calculate_minimum_bid_whole (q : ℚ) (h : isWholeNonneg q) :
    calculate_minimum_bid q = q + calculate_minimum_increment q := by
  obtain ⟨m, hm, rfl⟩ := isWholeNonneg_int q h
  obtain ⟨k, hk, hk1⟩ := calculate_minimum_increment_int (m : ℚ)
  unfold calculate_minimum_bid
  by_cases h0 : (m : ℚ) ≤ 0
  · have hm0 : m = 0 := le_antisymm (by exact_mod_cast h0) hm
    subst hm0
    rw [if_pos h0, hk]
    have : k = 1 := by
      rw [Int.cast_zero] at hk
      have h1 : calculate_minimum_increment 0 = 1 := by decide
      rw [h1] at hk
      exact_mod_cast hk.symm
    subst this
    norm_num
  · rw [if_neg h0, hk, ← Int.cast_add, pyRound_intCast, Int.cast_add]

/-- The next tracked highest amount stays whole and nonnegative. -/
theorem isWholeNonneg_min_needed (q : ℚ) (h : isWholeNonneg q) :
    isWholeNonneg (q + calculate_minimum_increment q) := by
  obtain ⟨m, hm, rfl⟩ := isWholeNonneg_int q h
  obtain ⟨k, hk, hk1⟩ := calculate_minimum_increment_int (m : ℚ)
  rw [hk, ← Int.cast_add]
  constructor
  · have : (0 : ℤ) ≤ m + k := by omega
    exact_mod_cast this
  · exact Rat.den_intCast _

/-! ### Ledger and loop lemmas -/

theorem highestBid_foldl_mem (l : List BidRec) (acc : Option BidRec) (b : BidRec)
    (h : l.foldl
      (fun acc b =>
        match acc with
        | none => some b
        | some h => if h.amount < b.amount then some b else acc)
      acc = some b) :
    acc = some b ∨ b ∈ l := by
  induction l generalizing acc with
  | nil => exact Or.inl h
  | cons x rest ih =>
    rcases ih _ h with hacc | hmem
    · cases acc with
      | none =>
        dsimp only at hacc
        simp only [Option.some.injEq] at hacc
        exact Or.inr (by simp [hacc.symm])
      | some a =>
        dsimp only at hacc
        by_cases hlt : a.amount < x.amount
        · rw [if_pos hlt] at hacc
          simp only [Option.some.injEq] at hacc
          exact Or.inr (by simp [hacc.symm])
        · rw [if_neg hlt] at hacc
          exact Or.inl hacc
    · exact Or.inr (List.mem_cons_of_mem _ hmem)

theorem highestBid_mem (bids : List BidRec) (b : BidRec)
    (h : highestBid bids = some b) : b ∈ bids := by
  rcases highestBid_foldl_mem bids none b h with hacc | hmem
  · cases hacc
  · exact hmem

theorem currentHighestAmount_whole (s : AuctionState)
    (hstart : isWholeNonneg s.starting_bid)
    (hbids : ∀ b ∈ s.bids, isWholeNonneg b.amount) :
    isWholeNonneg (currentHighestAmount s) := by
  unfold currentHighestAmount
  cases hhb : highestBid s.bids with
  | none => exact hstart
  | some hb => exact hbids hb (highestBid_mem _ _ hhb)

/-- On whole nonnegative amounts the source loop computes exactly the
specification's Strategy A loop. -/
theorem processProxyLoop_eq_strategyA_loop (l : List ProxyEntry) (h : ℚ)
    (w : Option ℕ) (hw : isWholeNonneg h) :
    processProxyLoop h w l = strategyA_loop h w l := by
  induction l generalizing h w with
  | nil => rfl
  | cons p rest ih =>
    by_cases hskip : w = some p.bidder_id
    · simp only [processProxyLoop, strategyA_loop, if_pos hskip]
      exact ih h w hw
    · simp only [processProxyLoop, strategyA_loop, if_neg hskip,
        strategyA_min_needed]
      rw [calculate_minimum_bid_whole h hw]
      by_cases hc : h + calculate_minimum_increment h ≤ p.max_amount
      · rw [if_pos hc, if_pos hc,
          ih _ _ (isWholeNonneg_min_needed h hw)]
      · rw [if_neg hc, if_neg hc]
        exact ih h w hw

/-- Each bid placed by the source loop belongs to a candidate of the list and
never exceeds that candidate's maximum. -/
theorem processProxyLoop_le_max (l : List ProxyEntry) (h : ℚ) (w : Option ℕ)
    (b : ℕ) (a : ℚ) (hmem : (b, a) ∈ processProxyLoop h w l) :
    ∃ p ∈ l, p.bidder_id = b ∧ a ≤ p.max_amount := by
  induction l generalizing h w with
  | nil => cases hmem
  | cons p rest ih =>
    by_cases hskip : w = some p.bidder_id
    · simp only [processProxyLoop, if_pos hskip] at hmem
      obtain ⟨q, hq, hqb⟩ := ih h w hmem
      exact ⟨q, List.mem_cons_of_mem _ hq, hqb⟩
    · simp only [processProxyLoop, if_neg hskip] at hmem
      by_cases hc : calculate_minimum_bid h ≤ p.max_amount
      · rw [if_pos hc] at hmem
        rcases List.mem_cons.mp hmem with heq | hrest
        · simp only [Prod.mk.injEq] at heq
          obtain ⟨h1, h2⟩ := heq
          exact ⟨p, List.mem_cons_self _ _, h1.symm, by rw [h2]; exact hc⟩
        · obtain ⟨q, hq, hqb⟩ := ih _ _ hrest
          exact ⟨q, List.mem_cons_of_mem _ hq, hqb⟩
      · rw [if_neg hc] at hmem
        obtain ⟨q, hq, hqb⟩ := ih h w hmem
        exact ⟨q, List.mem_cons_of_mem _ hq, hqb⟩

/-! ### Concrete states used by witnesses and counterexamples -/

/-- A live auction (at `now = 10`): starting bid 1000, seller 1, no bids yet,
two registered proxy bidders. -/
def exLive : AuctionState :=
  { start_date := 0, end_date := 100, starting_bid := 1000,
    reserve_price := none, seller_id := 1, bids := [],
    proxy_bids := [⟨7, 1102⟩, ⟨5, 2000⟩], results := [] }

/-- An ended auction (at `now = 200`) with reserve price 5000 and highest bid
4000, not yet resolved. -/
def exReserve : AuctionState :=
  { start_date := 0, end_date := 100, starting_bid := 1000,
    reserve_price := some 5000, seller_id := 1, bids := [⟨2, 4000⟩],
    proxy_bids := [], results := [] }

/-- An already-resolved auction. -/
def exDone : AuctionState :=
  { start_date := 0, end_date := 100, starting_bid := 1000,
    reserve_price := some 5000, seller_id := 1, bids := [⟨2, 4000⟩],
    proxy_bids := [], results := [⟨none, 4000⟩] }

/-! ### Claim theorems -/

/-- C1: Strategy A greedy proxy execution — on a live auction with
whole-nonnegative amounts, one invocation of
`process_proxy_bids_for_auction` considers the proxy bidders in descending
order of `max_amount`, starting from the current highest bid/bidder (or the
starting bid and no bidder); each candidate who is not the current highest
bidder and whose maximum reaches
`minimum_bid_needed = highest_amount + increment(highest_amount)` has a bid of
exactly `minimum_bid_needed` committed, updating the tracked highest
amount/bidder; others are skipped with no partial bid; the ordered
`(bidder, amount)` list is returned — i.e. the source computes exactly the
specification's `strategyA_bids` and appends those bids to the ledger. -/
theorem strategyA_greedy_execution (now : ℚ) (s : AuctionState)
    (hlive : s.statusAt now = Status.live)
    (hstart : isWholeNonneg s.starting_bid)
    (hbids : ∀ b ∈ s.bids, isWholeNonneg b.amount) :
    process_proxy_bids_for_auction now s =
      (strategyA_bids s,
        { s with bids := s.bids ++ (strategyA_bids s).map (fun e => ⟨e.1, e.2⟩) }) := by
  unfold process_proxy_bids_for_auction strategyA_bids
  rw [if_neg (by simp [hlive])]
  rw [processProxyLoop_eq_strategyA_loop _ _ _
    (currentHighestAmount_whole s hstart hbids)]

/-- Witness for C1 at a concrete live auction. -/
theorem strategyA_greedy_execution_witness :
    process_proxy_bids_for_auction 10 exLive =
      ([(5, 1050), (7, 1102)], { exLive with bids := [⟨5, 1050⟩, ⟨7, 1102⟩] }) := by
  have h := strategyA_greedy_execution 10 exLive (by decide) (by decide)
    (by decide)
  rw [h]
  decide

/-- C2: no committed proxy bid ever exceeds its bidder's standing
`max_amount`: every bid the greedy engine executes is covered by a registry
entry whose maximum it does not exceed, and the enhanced engine's
`_calculate_optimal_bid_for_bidder` never proposes an amount above the
bidder's maximum. -/
theorem proxy_bid_never_exceeds_max :
    (∀ (now : ℚ) (s : AuctionState) (b : ℕ) (a : ℚ),
      (b, a) ∈ (process_proxy_bids_for_auction now s).1 →
      ∃ p ∈ s.proxy_bids, p.bidder_id = b ∧ a ≤ p.max_amount) ∧
    (∀ (bidder_id : ℕ) (max_amount : ℚ) (all_proxy_bids : List (ℕ × ℚ))
      (current_highest : ℚ) (current_winner : Option ℕ) (a : ℚ),
      calculate_optimal_bid_for_bidder bidder_id max_amount all_proxy_bids
        current_highest current_winner = some a →
      a ≤ max_amount) := by
  constructor
  · intro now s b a hmem
    unfold process_proxy_bids_for_auction at hmem
    by_cases hlive : s.statusAt now ≠ Status.live
    · rw [if_pos hlive] at hmem
      cases hmem
    · rw [if_neg hlive] at hmem
      obtain ⟨p, hp, hpb⟩ := processProxyLoop_le_max _ _ _ _ _ hmem
      refine ⟨p, ?_, hpb⟩
      have hperm := List.perm_insertionSort
        (fun a b : ProxyEntry => b.max_amount ≤ a.max_amount) s.proxy_bids
      exact hperm.mem_iff.mp hp
  · intro bidder_id max_amount all_proxy_bids current_highest current_winner a h
    unfold calculate_optimal_bid_for_bidder at h
    by_cases h1 : (all_proxy_bids.find? (fun p => p.1 == bidder_id)).isNone
    · rw [if_pos h1] at h; cases h
    · rw [if_neg h1] at h
      by_cases h2 : current_winner = some bidder_id
      · rw [if_pos h2] at h; cases h
      · rw [if_neg h2] at h
        cases hfind : all_proxy_bids.find? (fun p => p.1 != bidder_id) with
        | none =>
          rw [hfind] at h
          dsimp only at h
          by_cases h3 : current_highest < max_amount
          · rw [if_pos h3] at h
            by_cases h4 : current_highest + 1 ≤ max_amount
            · rw [if_pos h4] at h
              simp only [Option.some.injEq] at h
              rw [← h]; exact h4
            · rw [if_neg h4] at h; cases h
          · rw [if_neg h3] at h; cases h
        | some second =>
          rw [hfind] at h
          dsimp only at h
          by_cases h5 : max_amount ≤ second.2
          · rw [if_pos h5] at h; cases h
          · rw [if_neg h5] at h
            by_cases h6 : max_amount <
                (if second.2 + 1 ≤ current_highest then current_highest + 1
                 else second.2 + 1)
            · rw [if_pos h6] at h; cases h
            · rw [if_neg h6] at h
              simp only [Option.some.injEq] at h
              rw [← h]
              exact le_of_not_lt h6

/-- Witness for C2: the two parts applied at concrete inputs. -/
theorem proxy_bid_never_exceeds_max_witness :
    (∃ p ∈ exLive.proxy_bids, p.bidder_id = 5 ∧ (1050 : ℚ) ≤ p.max_amount) ∧
    (42 : ℚ) ≤ 100 := by
  constructor
  · exact proxy_bid_never_exceeds_max.1 10 exLive 5 1050 (by decide)
  · exact proxy_bid_never_exceeds_max.2 3 100 [(3, 100), (4, 41)] 10 none 42
      (by decide)

/-- C3: resolver decision for an ended, not-yet-resolved auction with
nonnegative bid amounts — no bids yields no winner and `winning_bid = 0`; a
set reserve above the highest bid yields no winner with the highest amount
preserved; otherwise the highest bidder wins at the highest amount. -/
theorem auction_result_decision (s : AuctionState)
    (hres : s.results = [])
    (hnn : ∀ b ∈ s.bids, 0 ≤ b.amount) :
    (highestBid s.bids = none →
      (process_auction_result s).results = [⟨none, 0⟩]) ∧
    (∀ hb r, highestBid s.bids = some hb → s.reserve_price = some r →
      hb.amount < r →
      (process_auction_result s).results = [⟨none, hb.amount⟩]) ∧
    (∀ hb, highestBid s.bids = some hb →
      (s.reserve_price = none ∨ ∃ r, s.reserve_price = some r ∧ r ≤ hb.amount) →
      (process_auction_result s).results = [⟨some hb.bidder_id, hb.amount⟩]) := by
  refine ⟨?_, ?_, ?_⟩
  · intro hnone
    unfold process_auction_result
    rw [if_neg (by simp [hres]), hnone]
    simp [hres]
  · intro hb r hhb hrp hlt
    unfold process_auction_result
    rw [if_neg (by simp [hres]), hhb]
    dsimp only
    have hmet : reserve_met s.reserve_price hb.amount = false := by
      rw [hrp]
      unfold reserve_met
      have hnn' : 0 ≤ hb.amount := hnn hb (highestBid_mem _ _ hhb)
      have hr0 : ¬ r = 0 := by
        intro h0
        rw [h0] at hlt
        exact absurd (lt_of_le_of_lt hnn' hlt) (lt_irrefl 0)
      simp [hr0, not_le.mpr hlt]
    simp [hmet, hres]
  · intro hb hhb hok
    unfold process_auction_result
    rw [if_neg (by simp [hres]), hhb]
    dsimp only
    have hmet : reserve_met s.reserve_price hb.amount = true := by
      rcases hok with hnone | ⟨r, hrp, hle⟩
      · rw [hnone]; rfl
      · rw [hrp]
        unfold reserve_met
        simp [hle]
    simp [hmet, hres]

/-- Witness for C3: reserve 5000 against a highest bid of 4000 records no
winner with the bid amount preserved. -/
theorem auction_result_decision_witness :
    (process_auction_result exReserve).results = [⟨none, 4000⟩] := by
  exact (auction_result_decision exReserve (by decide) (by decide)).2.1
    ⟨2, 4000⟩ 5000 (by decide) (by decide) (by decide)

/-- The idempotent guard: an auction with an existing result is left fully
unchanged. -/
theorem process_auction_result_noop (t : AuctionState) (h : t.results ≠ []) :
    process_auction_result t = t := by
  unfold process_auction_result
  rw [if_pos h]

/-- C4: at most one `AuctionResult` per auction — resolving an auction that
already has a result is a complete no-op, and resolving twice from a
result-free state yields exactly one record. -/
theorem auction_result_idempotent (s : AuctionState) :
    (s.results ≠ [] → process_auction_result s = s) ∧
    (s.results = [] →
      (process_auction_result (process_auction_result s)).results.length = 1) := by
  constructor
  · exact process_auction_result_noop s
  · intro hres
    have step : (process_auction_result s).results.length = 1 := by
      unfold process_auction_result
      rw [if_neg (by simp [hres])]
      cases hhb : highestBid s.bids with
      | none => simp [hres]
      | some hb =>
        dsimp only
        by_cases hmet : reserve_met s.reserve_price hb.amount = true
        · rw [if_pos hmet]; simp [hres]
        · rw [if_neg hmet]; simp [hres]
    have hne : (process_auction_result s).results ≠ [] := by
      intro hnil
      rw [hnil] at step
      exact absurd step (by decide)
    rw [process_auction_result_noop _ hne, step]

/-- Witness for C4: both parts at concrete states. -/
theorem auction_result_idempotent_witness :
    (process_auction_result exDone = exDone) ∧
    ((process_auction_result (process_auction_result exReserve)).results.length = 1) := by
  exact ⟨(auction_result_idempotent exDone).1 (by decide),
    (auction_result_idempotent exReserve).2 (by decide)⟩

/-- C5 counterexample: a bid of exactly the current highest plus the
minimum increment is *not* strictly greater than that sum, yet the code
accepts it and appends it to the ledger — so "rejected iff the amount is not
strictly greater than the current highest bid plus the minimum increment"
fails at this input. -/
theorem place_bid_equality_accepted_counterexample :
    ¬ ((1000 : ℚ) + calculate_minimum_increment 1000 < 1050) ∧
    currentHighestAmount exLive = 1000 ∧
    (place_bid 10 2 1050 exLive).1 = true ∧
    (place_bid 10 2 1050 exLive).2.bids ≠ exLive.bids := by decide

/-- C5 (amended): a manual bid on an existing auction with whole-nonnegative
amounts is rejected (with the ledger unchanged) iff the rounded amount is
*strictly less than* the current highest amount plus the minimum increment,
or the auction is not live, or the bidder is the seller, or the bidder
already holds the highest bid; otherwise the rounded submitted amount is
appended to the ledger. -/
theorem place_bid_validation (now : ℚ) (bidder_id : ℕ) (bid_amount : ℚ)
    (s : AuctionState) (hstart : isWholeNonneg s.starting_bid)
    (hbids : ∀ b ∈ s.bids, isWholeNonneg b.amount) :
    ((place_bid now bidder_id bid_amount s).1 = false ↔
      (s.statusAt now ≠ Status.live ∨
       ((pyRound bid_amount : ℤ) : ℚ) <
         currentHighestAmount s +
           calculate_minimum_increment (currentHighestAmount s) ∨
       s.seller_id = bidder_id ∨
       currentHighestBidder s = some bidder_id)) ∧
    ((place_bid now bidder_id bid_amount s).1 = false →
      (place_bid now bidder_id bid_amount s).2 = s) ∧
    ((place_bid now bidder_id bid_amount s).1 = true →
      (place_bid now bidder_id bid_amount s).2.bids =
        s.bids ++ [⟨bidder_id, ((pyRound bid_amount : ℤ) : ℚ)⟩]) := by
  have hmb := calculate_minimum_bid_whole _
    (currentHighestAmount_whole s hstart hbids)
  unfold place_bid
  rw [hmb]
  refine ⟨?_, ?_, ?_⟩ <;> split_ifs with h1 h2 h3 h4 <;> simp_all

/-- Witness for C5 (amended): a bid below the minimum is rejected and leaves
the state unchanged. -/
theorem place_bid_validation_witness :
    (place_bid 10 2 1049 exLive).1 = false ∧
    (place_bid 10 2 1049 exLive).2 = exLive := by
  have h := place_bid_validation 10 2 1049 exLive (by decide) (by decide)
  have hf : (place_bid 10 2 1049 exLive).1 = false :=
    h.1.mpr (Or.inr (Or.inl (by decide)))
  exact ⟨hf, h.2.1 hf⟩

/-- C6 counterexample: on the fractional amount 100.5 the code's
`round(current + increment(current))` differs from the claimed
`round(current) + increment(round(current))` (106 versus 105). -/
theorem minimum_bid_rounding_order_counterexample :
    calculate_minimum_bid (201/2) ≠
      ((pyRound (201/2) : ℤ) : ℚ) +
        calculate_minimum_increment ((pyRound (201/2) : ℤ) : ℚ) := by decide

/-- C6 (amended): on whole nonnegative amounts — the only amounts the system
stores, since every accepted bid is rounded — the computed minimum bid equals
`round(current_amount) + increment(round(current_amount))`. -/
theorem minimum_bid_on_whole_amounts (q : ℚ) (h : isWholeNonneg q) :
    calculate_minimum_bid q =
      ((pyRound q : ℤ) : ℚ) +
        calculate_minimum_increment ((pyRound q : ℤ) : ℚ) := by
  obtain ⟨m, hm, rfl⟩ := isWholeNonneg_int q h
  rw [pyRound_intCast]
  exact calculate_minimum_bid_whole _ h

/-- Witness for C6 (amended) at amount 1000. -/
theorem minimum_bid_on_whole_amounts_witness :
    calculate_minimum_bid 1000 =
      ((pyRound 1000 : ℤ) : ℚ) +
        calculate_minimum_increment ((pyRound 1000 : ℤ) : ℚ) :=
  minimum_bid_on_whole_amounts 1000 (by decide)

theorem ite_floor_one (k : ℤ) :
    (if (1 : ℚ) ≤ (k : ℚ) then (k : ℚ) else 1) = ((max 1 k : ℤ) : ℚ) := by
  by_cases h : (1 : ℚ) ≤ (k : ℚ)
  · rw [if_pos h]
    have h' : (1 : ℤ) ≤ k := by exact_mod_cast h
    rw [max_eq_right h']
  · rw [if_neg h]
    have h' : ¬ (1 : ℤ) ≤ k := by exact_mod_cast h
    rw [max_eq_left (by omega)]
    norm_num

/-- C7: the tier table of `calculate_minimum_increment` — 5% below 10000
(half-open), 3% from 10000 to 100000 (so `increment(10000) = 300`), 2% to
1000000, 1.5% to 10000000, 1% above, each rounded to the nearest whole unit
(half to even) with a floor of 1. -/
theorem increment_tier_table (x : ℚ) :
    (0 ≤ x → x < 10000 →
      calculate_minimum_increment x = ((max 1 (pyRound (5/100 * x)) : ℤ) : ℚ)) ∧
    (10000 ≤ x → x < 100000 →
      calculate_minimum_increment x = ((max 1 (pyRound (3/100 * x)) : ℤ) : ℚ)) ∧
    (100000 ≤ x → x < 1000000 →
      calculate_minimum_increment x = ((max 1 (pyRound (2/100 * x)) : ℤ) : ℚ)) ∧
    (1000000 ≤ x → x < 10000000 →
      calculate_minimum_increment x = ((max 1 (pyRound (15/1000 * x)) : ℤ) : ℚ)) ∧
    (10000000 ≤ x →
      calculate_minimum_increment x = ((max 1 (pyRound (1/100 * x)) : ℤ) : ℚ)) ∧
    calculate_minimum_increment 10000 = 300 := by
  refine ⟨?_, ?_, ?_, ?_, ?_, by decide⟩
  · intro h0 h1
    simp only [calculate_minimum_increment]
    rw [if_pos h1, mul_comm (5/100 : ℚ) x]
    exact ite_floor_one _
  · intro h0 h1
    simp only [calculate_minimum_increment]
    rw [if_neg (not_lt.mpr h0), if_pos h1, mul_comm (3/100 : ℚ) x]
    exact ite_floor_one _
  · intro h0 h1
    simp only [calculate_minimum_increment]
    rw [if_neg (not_lt.mpr (by linarith)), if_neg (not_lt.mpr h0), if_pos h1,
      mul_comm (2/100 : ℚ) x]
    exact ite_floor_one _
  · intro h0 h1
    simp only [calculate_minimum_increment]
    rw [if_neg (not_lt.mpr (by linarith)), if_neg (not_lt.mpr (by linarith)),
      if_neg (not_lt.mpr h0), if_pos h1, mul_comm (15/1000 : ℚ) x]
    exact ite_floor_one _
  · intro h0
    simp only [calculate_minimum_increment]
    rw [if_neg (not_lt.mpr (by linarith)), if_neg (not_lt.mpr (by linarith)),
      if_neg (not_lt.mpr (by linarith)), if_neg (not_lt.mpr h0),
      mul_comm (1/100 : ℚ) x]
    exact ite_floor_one _

/-- Witness for C7: the 5% tier at 1000 and the boundary value 10000. -/
theorem increment_tier_table_witness :
    calculate_minimum_increment 1000 =
      ((max 1 (pyRound (5/100 * 1000)) : ℤ) : ℚ) :=
  (increment_tier_table 1000).1 (by decide) (by decide)

/-- C8: for `start < end` the derived status is `upcoming` iff `now < start`,
`live` iff `start ≤ now < end`, `ended` iff `now ≥ end`; in particular
`now = start` is `live` and `now = end` is `ended` (half-open `[start, end)`).
The status function reads only the two timestamps and the clock. -/
theorem status_half_open (start_date end_date now : ℚ)
    (h : start_date < end_date) :
    (status start_date end_date now = Status.upcoming ↔ now < start_date) ∧
    (status start_date end_date now = Status.live ↔
      start_date ≤ now ∧ now < end_date) ∧
    (status start_date end_date now = Status.ended ↔ end_date ≤ now) ∧
    status start_date end_date start_date = Status.live ∧
    status start_date end_date end_date = Status.ended := by
  refine ⟨?_, ?_, ?_, ?_, ?_⟩
  · unfold status
    split_ifs with h1 h2 <;> simp_all
  · unfold status
    split_ifs with h1 h2 <;> simp_all
  · unfold status
    split_ifs with h1 h2 <;> simp_all
    linarith
  · unfold status
    rw [if_neg (lt_irrefl start_date), if_pos ⟨le_refl _, h⟩]
  · unfold status
    rw [if_neg (by linarith), if_neg (by simp)]

/-- Witness for C8 at concrete timestamps. -/
theorem status_half_open_witness :
    (status 0 100 (-5) = Status.upcoming ↔ (-5 : ℚ) < 0) ∧
    (status 0 100 (-5) = Status.live ↔ (0 : ℚ) ≤ -5 ∧ (-5 : ℚ) < 100) ∧
    (status 0 100 (-5) = Status.ended ↔ (100 : ℚ) ≤ -5) ∧
    status 0 100 0 = Status.live ∧
    status 0 100 100 = Status.ended :=
  status_half_open 0 100 (-5) (by decide)

theorem norm_sq_zero_of_all_zero : ∀ v : List ℚ, (∀ x ∈ v, x = 0) → norm_sq v = 0
  | [], _ => rfl
  | x :: rest, h => by
    have hx : x = 0 := h x (List.mem_cons_self _ _)
    have ih := norm_sq_zero_of_all_zero rest
      (fun y hy => h y (List.mem_cons_of_mem _ hy))
    unfold norm_sq dot_product at ih ⊢
    rw [List.zipWith_cons_cons, List.sum_cons, ih, hx]
    ring

/-- C9: cosine-similarity scoring is total on degenerate input — an all-zero
product or preference vector (in particular an empty one) scores exactly 0,
and whenever the guarded division is taken its denominator is nonzero. -/
theorem cosine_similarity_zero_vector :
    (∀ product_vector user_vector : List ℚ,
      ((∀ x ∈ product_vector, x = 0) ∨ (∀ x ∈ user_vector, x = 0)) →
      cosine_similarity product_vector user_vector = 0) ∧
    (∀ product_vector user_vector : List ℚ,
      0 < vec_norm product_vector ∧ 0 < vec_norm user_vector →
      vec_norm product_vector * vec_norm user_vector ≠ 0) := by
  constructor
  · intro pv uv h
    unfold cosine_similarity
    rw [if_neg]
    intro hc
    rcases h with h | h
    · have hz : vec_norm pv = 0 := by
        unfold vec_norm
        rw [norm_sq_zero_of_all_zero _ h]
        norm_num
      rw [hz] at hc
      exact lt_irrefl 0 hc.1
    · have hz : vec_norm uv = 0 := by
        unfold vec_norm
        rw [norm_sq_zero_of_all_zero _ h]
        norm_num
      rw [hz] at hc
      exact lt_irrefl 0 hc.2
  · intro pv uv h
    exact (mul_pos h.1 h.2).ne'

/-- Witness for C9: an all-zero product vector scores 0 against a nonzero
preference vector. -/
theorem cosine_similarity_zero_vector_witness :
    cosine_similarity [0, 0, 0] [1, 2, 3] = 0 :=
  cosine_similarity_zero_vector.1 [0, 0, 0] [1, 2, 3] (Or.inl (by decide))

/-- C10: on an auction that is not ended, `set_proxy_bid` rejects a maximum
that does not exceed the current highest amount (highest bid, or starting bid
when no bids exist): it reports failure and leaves the state — in particular
the proxy-bid registry — completely unchanged. -/
theorem set_proxy_bid_rejects_low_max (now : ℚ) (bidder_id : ℕ)
    (max_amount : ℚ) (s : AuctionState)
    (hne : s.statusAt now ≠ Status.ended)
    (hle : max_amount ≤ currentHighestAmount s) :
    set_proxy_bid now bidder_id max_amount s = (false, s) := by
  unfold set_proxy_bid
  rw [if_neg hne, if_pos hle]

/-- Witness for C10: a maximum of 900 against a current highest of 1000 on a
live auction. -/
theorem set_proxy_bid_rejects_low_max_witness :
    set_proxy_bid 10 2 900 exLive = (false, exLive) :=
  set_proxy_bid_rejects_low_max 10 2 900 exLive (by decide) (by decide)

end AuctionSys
